import Mathlib

/-!
Shallow embedding of the dnslink-std/go DNSLink resolver (dnslink.go,
package version v0.4.0: the variant carrying TTLs and path entries).
Go strings are modelled as lists of characters (`GoStr`); Go's mutable
loops are modelled as folds or fuel-based recursion; Go's `(value, error)`
multiple returns are modelled with `Except`/`Option`/tuples; the runtime
panic of an out-of-range slice index is modelled as `Option.none`.
-/

namespace DNSLink

/-- Go strings, modelled as lists of characters (the sources only ever
index and slice them bytewise on ASCII data). -/
abbrev GoStr := List Char

/-- Convert a Lean string literal to the `GoStr` model. -/
def str (s : String) : GoStr := s.toList

/-- Model of Go `strings.HasPrefix(s, pfx)`. -/
def goHasPfx (s pfx : GoStr) : Bool := pfx.isPrefixOf s

/-- Model of Go `strings.HasSuffix(s, sfx)`. -/
def goHasSfx (s sfx : GoStr) : Bool := sfx.isSuffixOf s

/-- Model of Go `strings.TrimPrefix(s, pfx)`. -/
def goTrimPfx (s pfx : GoStr) : GoStr :=
  if goHasPfx s pfx then s.drop pfx.length else s

/-- Model of Go `strings.TrimSuffix(s, sfx)`. -/
def goTrimSfx (s sfx : GoStr) : GoStr :=
  if goHasSfx s sfx then s.take (s.length - sfx.length) else s

/-- Model of Go `unicode.IsSpace` restricted to the characters the
sources can meet in TXT data (ASCII whitespace plus NEL and NBSP; the
remaining Unicode space classes are not representable in DNS
character-strings handled here). -/
def goIsSpace (c : Char) : Bool :=
  c = ' ' ∨ c = '\t' ∨ c = '\n' ∨ c = '\x0b' ∨ c = '\x0c' ∨ c = '\r' ∨
  c = '\u0085' ∨ c = ' '

/-- Model of Go `strings.TrimSpace`. -/
def goTrimSpace (s : GoStr) : GoStr :=
  ((s.dropWhile goIsSpace).reverse.dropWhile goIsSpace).reverse

/-- Model of Go `strings.Split(s, sep)` for a one-character separator:
always returns at least one (possibly empty) field. -/
def splitChar (c : Char) : GoStr → List GoStr
  | [] => [[]]
  | x :: xs =>
    let rest := splitChar c xs
    if x = c then [] :: rest
    else
      match rest with
      | [] => [[x]]
      | h :: t => (x :: h) :: t

/-- Model of Go `strings.Join(parts, sep)` for a one-character separator. -/
def goJoin (c : Char) (parts : List GoStr) : GoStr := List.intercalate [c] parts

/-- Split at the first occurrence of `c`: returns the part before it and,
when `c` occurs, the part after it (model of Go `strings.SplitN(s, sep, 2)`
and of net/url's internal `split(s, sep, true)`). -/
def splitFirst (c : Char) : GoStr → GoStr × Option GoStr
  | [] => ([], none)
  | x :: xs =>
    if x = c then ([], some xs)
    else
      let r := splitFirst c xs
      (x :: r.1, r.2)

/-- Go's bytewise `<` on strings (used by `sort` via `ByValue.Less`). -/
def goStrLt : GoStr → GoStr → Bool
  | [], [] => false
  | [], _ :: _ => true
  | _ :: _, [] => false
  | a :: as, b :: bs => if a = b then goStrLt as bs else decide (a < b)

/-- One raw TXT record string plus its TTL (`LookupEntry` in the source). -/
structure LookupEntry where
  value : GoStr
  ttl : Nat
deriving DecidableEq, Repr

/-- Insert one entry into a list sorted by `ByValue.Less` (value order). -/
def insertByValue (e : LookupEntry) : List LookupEntry → List LookupEntry
  | [] => [e]
  | x :: xs => if goStrLt e.value x.value then e :: x :: xs else x :: insertByValue e xs

/-- Model of `sort.Sort(ByValue{list})`: sorts entries by their `value`
string.  Go's `sort.Sort` is an unstable (but deterministic) sort; this
model uses an insertion sort, which can order entries with equal `value`
differently — no claim here depends on the ordering of ties. -/
def sortByValue (l : List LookupEntry) : List LookupEntry :=
  l.foldl (fun acc e => insertByValue e acc) []

/-- Go `url.Values` / the `Search` maps: modelled as an association list
whose keys appear in first-insertion order. -/
abbrev Search := List (GoStr × List GoStr)

/-- Association-list lookup (model of a Go map read). -/
def alistLookup {α : Type} (m : List (GoStr × α)) (k : GoStr) : Option α :=
  match m with
  | [] => none
  | kv :: rest => if kv.1 = k then some kv.2 else alistLookup rest k

/-- Association-list key removal (model of Go `delete(m, k)`). -/
def alistErase {α : Type} (m : List (GoStr × α)) (k : GoStr) : List (GoStr × α) :=
  m.filter (fun kv => ¬ (kv.1 = k))

/-- Append one value to a key's list, creating the key at the end when it
is new (model of `m[k] = append(m[k], v)` on a Go map). -/
def searchAppend (m : Search) (k : GoStr) (v : GoStr) : Search :=
  match m with
  | [] => [(k, [v])]
  | kv :: rest =>
    if kv.1 = k then (kv.1, kv.2 ++ [v]) :: rest
    else kv :: searchAppend rest k v

/-- Uppercase hexadecimal digit of `n < 16` (Go's `upperhex` table). -/
def hexDigit (n : Nat) : Char :=
  if n < 10 then Char.ofNat ('0'.toNat + n) else Char.ofNat ('A'.toNat + n - 10)

/-- Numeric value of a hexadecimal digit character, if it is one. -/
def hexVal (c : Char) : Option Nat :=
  if '0' ≤ c ∧ c ≤ '9' then some (c.toNat - '0'.toNat)
  else if 'a' ≤ c ∧ c ≤ 'f' then some (c.toNat - 'a'.toNat + 10)
  else if 'A' ≤ c ∧ c ≤ 'F' then some (c.toNat - 'A'.toNat + 10)
  else none

def isAlphaChar (c : Char) : Bool :=
  ('a' ≤ c ∧ c ≤ 'z') ∨ ('A' ≤ c ∧ c ≤ 'Z')

def isDigitChar (c : Char) : Bool := '0' ≤ c ∧ c ≤ '9'

/-- Go `url.shouldEscape(c, encodePathSegment)`: which characters
`url.PathEscape` leaves alone.  Modelled per character; Go works on the
UTF-8 bytes, which agrees with this on the ASCII data the resolver
handles. -/
def shouldEscapePathSeg (c : Char) : Bool :=
  if isAlphaChar c ∨ isDigitChar c then false
  else if c = '-' ∨ c = '_' ∨ c = '.' ∨ c = '~' then false
  else if c = '$' ∨ c = '&' ∨ c = '+' ∨ c = ':' ∨ c = '=' ∨ c = '@' then false
  else true

/-- Model of Go `url.PathEscape`. -/
def goPathEscape (s : GoStr) : GoStr :=
  s.foldr
    (fun c acc =>
      if shouldEscapePathSeg c then
        '%' :: hexDigit (c.toNat / 16) :: hexDigit (c.toNat % 16) :: acc
      else c :: acc)
    []

/-- Model of Go `url.PathUnescape`: decodes `%XX` sequences, fails on a
malformed one (`'+'` is kept verbatim in path mode). -/
def goPathUnescape : GoStr → Option GoStr
  | [] => some []
  | c :: rest =>
    if c = '%' then
      match rest with
      | a :: b :: rest' =>
        match hexVal a, hexVal b with
        | some x, some y => (goPathUnescape rest').map (fun r => Char.ofNat (16 * x + y) :: r)
        | _, _ => none
      | _ => none
    else (goPathUnescape rest).map (fun r => c :: r)

/-- Model of Go `url.QueryUnescape`: like path unescaping but `'+'`
decodes to a space. -/
def goQueryUnescape : GoStr → Option GoStr
  | [] => some []
  | c :: rest =>
    if c = '%' then
      match rest with
      | a :: b :: rest' =>
        match hexVal a, hexVal b with
        | some x, some y => (goQueryUnescape rest').map (fun r => Char.ofNat (16 * x + y) :: r)
        | _, _ => none
      | _ => none
    else if c = '+' then (goQueryUnescape rest).map (fun r => ' ' :: r)
    else (goQueryUnescape rest).map (fun r => c :: r)

/-- One `key=value` pair of Go `url.ParseQuery`; returns the updated map
or `none` on this pair's error. -/
def parseQueryPair (m : Search) (pair : GoStr) : Option Search :=
  if pair.contains ';' then none
  else
    let kv := splitFirst '=' pair
    match goQueryUnescape kv.1, goQueryUnescape (kv.2.getD []) with
    | some k, some v => some (searchAppend m k v)
    | _, _ => none

/-- Model of Go `url.ParseQuery`: splits on `&`, skips empty chunks,
percent-decodes keys and values; `none` when any pair errors (the Go
function then reports a non-nil error and the caller here discards the
partially filled map). -/
def goParseQuery (q : GoStr) : Option Search :=
  (splitChar '&' q).foldl
    (fun acc pair =>
      match acc with
      | none => none
      | some m => if pair = [] then some m else parseQueryPair m pair)
    (some [])

/-- `searchFromQuery` from the source: an empty map when parsing fails. -/
def searchFromQuery (q : GoStr) : Search :=
  match goParseQuery q with
  | none => []
  | some s => s

/-- Parsed-URL triple used by the model of `net/url.Parse`. -/
structure GoURL where
  host : GoStr := []
  path : GoStr := []
  rawQuery : GoStr := []
deriving DecidableEq, Repr

/-- Scheme scanner of Go `url.getScheme`, after a leading letter:
`some (true, rest)` when a `:` terminates a valid scheme. -/
def schemeLoop (orig : GoStr) : GoStr → Option (Bool × GoStr)
  | [] => some (false, orig)
  | c :: rest =>
    if c = ':' then some (true, rest)
    else if isAlphaChar c ∨ isDigitChar c ∨ c = '+' ∨ c = '-' ∨ c = '.' then schemeLoop orig rest
    else some (false, orig)

/-- Model of Go `url.getScheme`: `none` is the "missing protocol scheme"
error (leading `:`). -/
def goGetScheme (s : GoStr) : Option (Bool × GoStr) :=
  match s with
  | [] => some (false, [])
  | c :: rest =>
    if isAlphaChar c then schemeLoop s rest
    else if c = ':' then none else some (false, s)

/-- Host part of an authority: everything after the last `@`
(Go `parseAuthority`; userinfo and host-syntax validation are not
modelled — the resolver never feeds userinfo or bracketed hosts in). -/
def afterLastAt (auth : GoStr) : GoStr := ((splitChar '@' auth).getLast?).getD []

/-- Model of Go `net/url.Parse` (with `viaRequest = false`), restricted to
what `relevantURLParts`/`Reduce` read: `Host`, `Path` and `RawQuery`.
Faithfully modelled: fragment stripping, query splitting at the first `?`,
scheme detection, the opaque case, the `//authority` case including the
no-scheme `///` exception, and the "first path segment cannot contain a
colon" error.  Not modelled: percent-decoding of the stored `Path`
(`setPath`), control-character and host-syntax errors — none of which the
claims under study exercise. -/
def goURLParse (s : GoStr) : Option GoURL :=
  let noFrag := s.takeWhile (fun c => ¬ (c = '#'))
  match goGetScheme noFrag with
  | none => none
  | some sr =>
    let hasScheme := sr.1
    let qs := splitFirst '?' sr.2
    let rest := qs.1
    let rawQuery := (qs.2).getD []
    if ¬ goHasPfx rest ['/'] then
      if hasScheme then some { rawQuery := rawQuery }
      else if (splitFirst '/' rest).1.contains ':' then none
      else some { path := rest, rawQuery := rawQuery }
    else if goHasPfx rest ['/', '/'] ∧ (hasScheme ∨ ¬ goHasPfx rest ['/', '/', '/']) then
      let ar := splitFirst '/' (rest.drop 2)
      some { host := afterLastAt ar.1,
             path := match ar.2 with | none => [] | some r => '/' :: r,
             rawQuery := rawQuery }
    else some { path := rest, rawQuery := rawQuery }

/-- One audit-log event (`LogStatement` in the source); unset Go string
fields are the empty string, i.e. `[]` here. -/
structure LogStatement where
  code : GoStr
  domain : GoStr := []
  entry : GoStr := []
  reason : GoStr := []
  pathname : GoStr := []
  search : Search := []
deriving DecidableEq, Repr

/-- Normalized decomposition of a domain-or-URL input (`URLParts`). -/
structure URLParts where
  domain : GoStr
  pathname : GoStr := []
  search : Search := []
deriving DecidableEq, Repr

/-- One hop's pathname/query contribution (`PathEntry`). -/
structure PathEntry where
  pathname : GoStr := []
  search : Search := []
deriving DecidableEq, Repr

def dnsPfx : GoStr := "_dnslink.".toList
def txtPfx : GoStr := "dnslink=".toList
def dlKey : GoStr := "dnslink".toList

def cRESOLVE : GoStr := "RESOLVE".toList
def cREDIRECT : GoStr := "REDIRECT".toList
def cENDLESS : GoStr := "ENDLESS_REDIRECT".toList
def cTOOMANY : GoStr := "TOO_MANY_REDIRECTS".toList
def cUNUSED : GoStr := "UNUSED_ENTRY".toList
def cINVALID_ENTRY : GoStr := "INVALID_ENTRY".toList
def cINVALID_REDIRECT : GoStr := "INVALID_REDIRECT".toList
def cRECURSIVE : GoStr := "RECURSIVE_DNSLINK_PREFIX".toList

def MAX_UINT_32 : Nat := 4294967295

/-- `minUint32` from the source. -/
def minUint32 (a b : Nat) : Nat := if a < b then a else b

/-- `escapePath` from the source: percent-escape each `/`-separated part. -/
def escapePath (pathname : GoStr) : GoStr :=
  goJoin '/' ((splitChar '/' pathname).map goPathEscape)

/-- `relevantURLParts` from the source. -/
def relevantURLParts (input : GoStr) : URLParts :=
  match goURLParse input with
  | none => { domain := [], pathname := [], search := [] }
  | some u =>
    let dp : GoStr × GoStr :=
      if ¬ (u.host = []) then (u.host, u.path)
      else if ¬ (u.path = []) then
        match splitFirst '/' u.path with
        | (d, none) => (d, [])
        | (d, some rest) => (d, '/' :: rest)
      else ([], [])
    { domain := dp.1, pathname := escapePath dp.2, search := searchFromQuery u.rawQuery }

/-- Label check loop of `testFqnd`: first failure reason, or empty. -/
def testLabels : List GoStr → GoStr
  | [] => []
  | l :: rest =>
    if l.length = 0 then "EMPTY_PART".toList
    else if 63 < l.length then "TOO_LONG".toList
    else testLabels rest

/-- `testFqnd` from the source: empty string means the domain is fine. -/
def testFqnd (domain : GoStr) : GoStr :=
  if 244 < domain.length then "TOO_LONG".toList
  else testLabels (splitChar '.' domain)

/-- `validateDomain` from the source: either the prefixed lookup target or
the log statement describing the rejection. -/
def validateDomain (input entry : GoStr) : Except LogStatement URLParts :=
  let urlParts := relevantURLParts input
  let domain0 := urlParts.domain
  let domain1 := if goHasPfx domain0 dnsPfx then domain0.drop dnsPfx.length else domain0
  if goHasPfx domain0 dnsPfx ∧ goHasPfx domain1 dnsPfx then
    .error { code := cRECURSIVE, domain := urlParts.domain,
             pathname := urlParts.pathname, search := urlParts.search }
  else
    let domain := goTrimSfx domain1 ['.']
    let reason := testFqnd domain
    if ¬ (reason = []) then
      .error { code := cINVALID_REDIRECT, entry := entry, reason := reason }
    else
      .ok { domain := dnsPfx ++ domain, pathname := urlParts.pathname, search := urlParts.search }

/-- The RFC 4343 §2.1 character-set test (`entryCharset` regex
`^[\x20-\x7e]+$`). -/
def entryCharsetOk (s : GoStr) : Bool :=
  ¬ s.isEmpty ∧ s.all (fun c => ' ' ≤ c ∧ c ≤ '~')

/-- `validateDNSLinkEntry` from the source (the v0.4.0 variant with the
character-set check and percent-decoding): returns
`(key, value, reason)`, where a non-empty `reason` is the failure. -/
def validateDNSLinkEntry (entry : GoStr) : GoStr × GoStr × GoStr :=
  let trimmed := goTrimSpace (entry.drop txtPfx.length)
  if ¬ goHasPfx trimmed ['/'] then ([], [], "WRONG_START".toList)
  else if ¬ entryCharsetOk trimmed then ([], [], "INVALID_CHARACTER".toList)
  else
    match goPathUnescape trimmed with
    | none => ([], [], "INVALID_ENCODING".toList)
    | some decoded =>
      let parts := (splitChar '/' decoded).drop 1
      if parts.length = 0 then ([], [], "KEY_MISSING".toList)
      else
        let key := goTrimSpace (parts.headD [])
        if key = [] then ([], [], "KEY_MISSING".toList)
        else if parts.length = 1 then ([], [], "NO_VALUE".toList)
        else
          let value := goTrimSpace (goJoin '/' (parts.drop 1))
          if value = [] then ([], [], "NO_VALUE".toList)
          else (key, value, [])

/-- One validated entry kept for grouping (`processedEntry`). -/
structure ProcessedEntry where
  value : GoStr
  entry : GoStr
  ttl : Nat
deriving DecidableEq, Repr

/-- The namespace-grouping map, keyed in first-insertion order. -/
abbrev FoundMap := List (GoStr × List ProcessedEntry)

/-- Append a processed entry to its namespace's list (`found[key] = ...`). -/
def foundInsert (m : FoundMap) (k : GoStr) (p : ProcessedEntry) : FoundMap :=
  match m with
  | [] => [(k, [p])]
  | kv :: rest =>
    if kv.1 = k then (kv.1, kv.2 ++ [p]) :: rest
    else kv :: foundInsert rest k p

/-- `hasDNSLinkEntry` from the source. -/
def hasDNSLinkEntry (txtEntries : List LookupEntry) : Bool :=
  txtEntries.any (fun e => goHasPfx e.value txtPfx)

/-- The loop body of `processEntries`: skip non-`dnslink=` strings, log
invalid entries, group valid ones. -/
def processStep (acc : FoundMap × List LogStatement) (entry : LookupEntry) :
    FoundMap × List LogStatement :=
  if ¬ goHasPfx entry.value txtPfx then acc
  else
    let kvr := validateDNSLinkEntry entry.value
    if ¬ (kvr.2.2 = []) then
      (acc.1, acc.2 ++ [{ code := cINVALID_ENTRY, entry := entry.value, reason := kvr.2.2 }])
    else (foundInsert acc.1 kvr.1 { value := kvr.2.1, entry := entry.value, ttl := entry.ttl }, acc.2)

/-- `processEntries` from the source: group the `dnslink=`-prefixed TXT
strings by namespace, logging `INVALID_ENTRY` for the malformed ones. -/
def processEntries (dnslinkEntries : List LookupEntry) : FoundMap × List LogStatement :=
  dnslinkEntries.foldl processStep ([], [])

/-- The redirect-candidate loop body inside `resolveTxtEntries`: state is
the log so far and the chosen redirect (with its TTL), if any. -/
def redirectFold (st : List LogStatement × Option (URLParts × Nat)) (dns : ProcessedEntry) :
    List LogStatement × Option (URLParts × Nat) :=
  match validateDomain dns.value dns.entry with
  | .error e => (st.1 ++ [e], st.2)
  | .ok validated =>
    match st.2 with
    | none => (st.1, some (validated, dns.ttl))
    | some r => (st.1 ++ [{ code := cUNUSED, entry := dns.entry }], some r)

/-- Build the final `links` value from the grouping map (the last loop of
`resolveTxtEntries`): per namespace, the values sorted by identifier. -/
def buildLinks (found : FoundMap) : List (GoStr × List LookupEntry) :=
  found.map (fun kv => (kv.1, sortByValue (kv.2.map (fun fe => { value := fe.value, ttl := fe.ttl }))))

/-- Return value of `resolveTxtEntries`. -/
structure TxtOut where
  links : List (GoStr × List LookupEntry)
  log : List LogStatement
  redirect : Option URLParts
  redirectTtl : Nat
deriving DecidableEq, Repr

/-- `resolveTxtEntries` from the source. -/
def resolveTxtEntries (domain : GoStr) (recursive : Bool) (txtEntries : List LookupEntry) : TxtOut :=
  if ¬ hasDNSLinkEntry txtEntries ∧ goHasPfx domain dnsPfx then
    { links := [], log := [],
      redirect := some { domain := domain.drop dnsPfx.length },
      redirectTtl := MAX_UINT_32 }
  else
    let fl := processEntries txtEntries
    let found := fl.1
    let dnsLinks := alistLookup found dlKey
    if recursive ∧ dnsLinks.isSome then
      let st := (dnsLinks.getD []).foldl redirectFold (fl.2, none)
      let found' := alistErase found dlKey
      match st.2 with
      | some r =>
        let log2 := found'.foldl
          (fun lg kv => lg ++ kv.2.map (fun fe => { code := cUNUSED, entry := fe.entry })) st.1
        { links := [], log := log2, redirect := some r.1, redirectTtl := r.2 }
      | none =>
        { links := buildLinks found', log := st.1, redirect := none, redirectTtl := MAX_UINT_32 }
    else
      { links := buildLinks found, log := fl.2, redirect := none, redirectTtl := MAX_UINT_32 }

/-- Byte produced for one `\DDD` escape: `strconv.ParseUint(ddd, 10, 9)`
clamps an out-of-range value to `511` (the 9-bit maximum) and `byte(...)`
truncates modulo 256. -/
def utf8Byte (a b c : Char) : Char :=
  Char.ofNat (min (100 * (a.toNat - '0'.toNat) + 10 * (b.toNat - '0'.toNat) + (c.toNat - '0'.toNat)) 511 % 256)

/-- The left-to-right scan of `utf8Replace.ReplaceAllFunc`: replaces each
non-overlapping leftmost match of `\\\d{3}` via `utf8ReplaceFunc`. -/
def utf8Scan : GoStr → GoStr
  | [] => []
  | [c] => [c]
  | [c, a] => [c, a]
  | [c, a, b] => [c, a, b]
  | c :: a :: b :: d :: rest' =>
    if c = '\\' ∧ isDigitChar a ∧ isDigitChar b ∧ isDigitChar d then
      utf8Byte a b d :: utf8Scan rest'
    else c :: utf8Scan (a :: b :: d :: rest')

/-- `utf8Value` from the source: join the character-string fragments of one
TXT record and decode the `\DDD` escapes. -/
def utf8Value (input : List GoStr) : GoStr := utf8Scan input.flatten

def rcodeNames : List GoStr :=
  [str "Success", str "FormErr", str "ServFail", str "NXDomain", str "NotImp",
   str "Refused", str "YXDomain", str "YXRRSet", str "NXRRSet", str "NotAuth",
   str "NotZone", str "DSOTYPENI", [], [], [], [],
   str "BADVERS_BADSIG", str "BADKEY", str "BADTIME", str "BADMODE",
   str "BADNAME", str "BADALG", str "BADTRUNC", str "BADCOOKIE"]

def rcodeDetails : List GoStr :=
  [[],
   str "The name server was unable to interpret the query.",
   str "The name server was unable to process this query due to a problem with the name server.",
   str "Non-Existent Domain.",
   str "The name server does not support the requested kind of query.",
   str "The name server refuses to perform the specified operation for policy reasons.",
   str "Name Exists when it should not.",
   str "RR Set Exists when it should not.",
   str "RR Set that should exist does not.",
   str "Server Not Authoritative for zone  / Not Authorized.",
   str "Name not contained in zone.",
   str "DSO-TYPE Not Implemented.",
   [], [], [], [],
   str "Bad OPT Version. / TSIG Signature Failure.",
   str "Key not recognized.",
   str "Signature out of time window",
   str "Bad TKEY Mode.",
   str "Duplicate key name.",
   str "Algorithm not supported.",
   str "Bad Truncation.",
   str "Bad/missing Server Cookie."]

/-- Go slice indexing `l[i]` on an `int` index: `none` models the runtime
"index out of range" panic. -/
def goIndex {α : Type} (l : List α) (i : Int) : Option α :=
  if 0 ≤ i ∧ i < (l.length : Int) then l.get? i.toNat else none

/-- `RCode.Name()` from the source: the guard is `int(code) > len(rcodeNames)`
(not `>=`), after which `rcodeNames[code]` is indexed. -/
def rcodeName (code : Int) : Option GoStr :=
  if (rcodeNames.length : Int) < code then some [] else goIndex rcodeNames code

/-- `RCode.Detail()` from the source: guard `int(code) > len(rcodeDetails)`,
then `rcodeDetails[code] == ""` is tested and the entry returned. -/
def rcodeDetail (code : Int) : Option GoStr :=
  if (rcodeDetails.length : Int) < code then some ("Undefined Error.".toList)
  else
    match goIndex rcodeDetails code with
    | none => none
    | some d => if d = [] then some ("Undefined Error.".toList) else some d

/-- The segment-reduction loop of `reducePath`: `none` models the panic of
`finalParts[:len(finalParts)-1]` on an empty slice. -/
def reducePathAux (acc : List GoStr) : List GoStr → Option (List GoStr)
  | [] => some acc
  | p :: rest =>
    if p = ['.', '.'] then
      match acc with
      | [] => none
      | _ => reducePathAux acc.dropLast rest
    else if p = ['.'] then reducePathAux acc rest
    else reducePathAux (acc ++ [p]) rest

/-- `reducePath` from the source: drop `.`, let `..` truncate, then
percent-escape each surviving segment and join with `/`. -/
def reducePath (parts : List GoStr) : Option GoStr :=
  (reducePathAux [] parts).map (fun fp => goJoin '/' (fp.map goPathEscape))

/-- `combineSearch` from the source: append the new entries' values into
the running query set (aliasing the new map when the old one is empty). -/
def combineSearch (newEntries : Search) (search : Search) : Search :=
  if search.isEmpty then newEntries
  else newEntries.foldl (fun se kv => kv.2.foldl (fun se2 v => searchAppend se2 kv.1 v) se) search

/-- The per-entry body of `PathEntries.Reduce`'s loop, acting on the
accumulated `(pathParts, search)` state. -/
def reduceStep (st : List GoStr × Search) (path : PathEntry) : List GoStr × Search :=
  let pp :=
    if ¬ (path.pathname = []) then
      let pn := goTrimPfx path.pathname ['/']
      if goHasPfx pn ['/'] then splitChar '/' (pn.drop 1)
      else st.1 ++ splitChar '/' pn
    else st.1
  (pp, combineSearch path.search st.2)

abbrev PathEntries := List PathEntry

/-- `PathEntries.Reduce` from the source: compose the accumulated path
entries against an input URL-ish string; `none` models either the
`url.Parse` error return or the `reducePath` slice panic. -/
def PathEntries.Reduce (paths : PathEntries) (input : GoStr) : Option PathEntry :=
  match goURLParse input with
  | none => none
  | some u =>
    let basePath := u.host ++ u.path
    let st := paths.foldl reduceStep (splitChar '/' basePath, searchFromQuery u.rawQuery)
    match reducePath st.1 with
    | none => none
    | some pathname => some { pathname := pathname, search := st.2 }

/-- `getPathFromLog` from the source: the non-empty pathname/search
contributions of `RESOLVE`/`REDIRECT` statements, last hop first. -/
def getPathFromLog (log : List LogStatement) : List PathEntry :=
  ((log.filter (fun e =>
      (e.code = cREDIRECT ∨ e.code = cRESOLVE) ∧ (¬ (e.pathname = []) ∨ ¬ (e.search = [])))).map
    (fun e => { pathname := e.pathname, search := e.search })).reverse

/-- Outcome of one `lookupTXT` call: entries, a typed `RCodeError`, or any
other error. -/
inductive LookupResult
  | ok (entries : List LookupEntry)
  | rcodeErr (rcode : Int) (domain : GoStr)
  | err
deriving DecidableEq, Repr

/-- The pluggable lookup capability (`LookupTXTFunc`), modelled as a pure
function: the same domain always yields the same reply within one
resolution. -/
abbrev LookupTXTFunc := GoStr → LookupResult

/-- `isNotFoundError` from the source: an `RCodeError` with rcode 3. -/
def isNotFoundError : LookupResult → Bool
  | .rcodeErr 3 _ => true
  | _ => false

/-- The loop's fatal-lookup test: `error != nil && !(isNotFoundError(error)
&& strings.HasPrefix(domain, dnsPrefix))`. -/
def fatalLookupError (lr : LookupResult) (domain : GoStr) : Bool :=
  match lr with
  | .ok _ => false
  | _ => ¬ (isNotFoundError lr ∧ goHasPfx domain dnsPfx)

/-- Entries visible to `resolveTxtEntries`: the lookup's answer, or none
on error (a failed Go lookup returns a nil slice). -/
def entriesOf : LookupResult → List LookupEntry
  | .ok es => es
  | _ => []

/-- A hard resolution error as surfaced to the caller. -/
inductive ResolveError
  | rcode (rcode : Int) (domain : GoStr)
  | generic
  | stmt (s : LogStatement)
deriving DecidableEq, Repr

/-- The error value the loop propagates for a fatal lookup failure. -/
def errOf : LookupResult → ResolveError
  | .rcodeErr n d => .rcode n d
  | _ => .generic

/-- The externally visible outcome of one resolve call (`Result`). -/
structure Result where
  links : List (GoStr × List LookupEntry) := []
  path : List PathEntry := []
  log : List LogStatement := []
deriving DecidableEq, Repr

/-- The pending `RESOLVE` statement built at the top of each iteration. -/
def resolveStmt (lookup : URLParts) : LogStatement :=
  { code := cRESOLVE, domain := lookup.domain, pathname := lookup.pathname, search := lookup.search }

/-- The `REDIRECT` statement recorded when a hop is taken. -/
def redirectStmt (lookup : URLParts) : LogStatement :=
  { code := cREDIRECT, domain := lookup.domain, pathname := lookup.pathname, search := lookup.search }

def endlessStmt (red : URLParts) : LogStatement :=
  { code := cENDLESS, domain := red.domain, pathname := red.pathname, search := red.search }

def tooManyStmt (red : URLParts) : LogStatement :=
  { code := cTOOMANY, domain := red.domain, pathname := red.pathname, search := red.search }

/-- The final TTL clamp of the terminal branch: every kept entry's TTL is
lowered to the running minimum. -/
def clampLinks (links : List (GoStr × List LookupEntry)) (ttl : Nat) :
    List (GoStr × List LookupEntry) :=
  links.map (fun kv => (kv.1, kv.2.map (fun e => { e with ttl := minUint32 e.ttl ttl })))

/-- `chain[domain] = true` on a Go map: idempotent insertion. -/
def chainAdd (chain : List GoStr) (domain : GoStr) : List GoStr :=
  if domain ∈ chain then chain else chain ++ [domain]

/-- Outcome of one iteration of the `resolve` loop: a return, or the next
iteration's chain, the chosen redirect's TTL, the next lookup target and
the log so far (the loop lowers its running TTL by that redirect TTL,
`ttl = minUint32(ttl, redirectTtl)`, before re-entering). -/
inductive IterOut
  | done (out : Result × Option ResolveError)
  | next (chain : List GoStr) (redirectTtl : Nat) (lookup : URLParts) (log : List LogStatement)
deriving DecidableEq, Repr

/-- One iteration of the `for` loop in `resolve` (lines 1122–1157 of the
source), with the mutable state threaded explicitly. -/
def resolveIter (f : LookupTXTFunc) (recursive : Bool) (chain : List GoStr) (ttl : Nat)
    (lookup : URLParts) (log : List LogStatement) : IterOut :=
  let lr := f lookup.domain
  if fatalLookupError lr lookup.domain then
    .done ({ links := [], path := [], log := log ++ [resolveStmt lookup] }, some (errOf lr))
  else
    let t := resolveTxtEntries lookup.domain recursive (entriesOf lr)
    let log2 := log ++ t.log
    match t.redirect with
    | none =>
      let logF := log2 ++ [resolveStmt lookup]
      .done ({ links := clampLinks t.links ttl, path := getPathFromLog logF, log := logF }, none)
    | some red =>
      if red.domain ∈ chain then
        .done ({ links := [], path := [],
                 log := log2 ++ [resolveStmt lookup, endlessStmt red] }, none)
      else if chain.length = 31 then
        .done ({ links := [], path := [],
                 log := log2 ++ [resolveStmt lookup, tooManyStmt red] }, none)
      else
        .next (chainAdd chain lookup.domain) t.redirectTtl red (log2 ++ [redirectStmt lookup])

/-- The `resolve` loop, with explicit fuel: `none` means the fuel ran out
before the loop returned (the termination theorems show fuel 32 always
suffices). -/
def resolveLoop (f : LookupTXTFunc) (recursive : Bool) :
    Nat → List GoStr → Nat → URLParts → List LogStatement → Option (Result × Option ResolveError)
  | 0, _, _, _, _ => none
  | fuel + 1, chain, ttl, lookup, log =>
    match resolveIter f recursive chain ttl lookup log with
    | .done out => some out
    | .next chain' rTtl lookup' log' =>
      resolveLoop f recursive fuel chain' (minUint32 ttl rTtl) lookup' log'

/-- `resolve` from the source (entry point of `Resolve`/`ResolveN`): the
input is validated, then the redirect loop runs with an empty chain and a
running TTL of `MAX_UINT_32`. -/
def resolve (f : LookupTXTFunc) (domain : GoStr) (recursive : Bool) (fuel : Nat) :
    Option (Result × Option ResolveError) :=
  match validateDomain domain [] with
  | .error s => some ({ links := [], path := [], log := [] }, some (.stmt s))
  | .ok lookup => resolveLoop f recursive fuel [] MAX_UINT_32 lookup []

/-- The redirect target a domain's lookup produces, if the iteration at
that domain takes a redirect at all (a derived view of `resolveIter`, used
to state the cycle invariant). -/
def stepRedirect (f : LookupTXTFunc) (recursive : Bool) (domain : GoStr) : Option GoStr :=
  if fatalLookupError (f domain) domain then none
  else ((resolveTxtEntries domain recursive (entriesOf (f domain))).redirect).map (fun u => u.domain)

/-- The redirect TTLs of the hops the loop actually takes, in order: the
projection of `resolveLoop`'s trace used to state TTL monotonicity. -/
def loopHops (f : LookupTXTFunc) (recursive : Bool) :
    Nat → List GoStr → Nat → URLParts → List LogStatement → List Nat
  | 0, _, _, _, _ => []
  | fuel + 1, chain, ttl, lookup, log =>
    match resolveIter f recursive chain ttl lookup log with
    | .done _ => []
    | .next chain' rTtl lookup' log' =>
      rTtl :: loopHops f recursive fuel chain' (minUint32 ttl rTtl) lookup' log'

/-- The hop-TTL trace of a whole `resolve` call. -/
def resolveHops (f : LookupTXTFunc) (domain : GoStr) (recursive : Bool) (fuel : Nat) : List Nat :=
  match validateDomain domain [] with
  | .error _ => []
  | .ok lookup => loopHops f recursive fuel [] MAX_UINT_32 lookup []

instance {ε α : Type} [DecidableEq ε] [DecidableEq α] : DecidableEq (Except ε α) := fun a b =>
  match a, b with
  | .error x, .error y =>
    if h : x = y then .isTrue (by rw [h]) else .isFalse (by intro hc; cases hc; exact h rfl)
  | .ok x, .ok y =>
    if h : x = y then .isTrue (by rw [h]) else .isFalse (by intro hc; cases hc; exact h rfl)
  | .error _, .ok _ => .isFalse (by intro hc; cases hc)
  | .ok _, .error _ => .isFalse (by intro hc; cases hc)

/-- The redirect-selection rule as the specification words it: the first
candidate (in TXT iteration order) whose value validates as a domain is
the redirect target, carrying that candidate's TTL.  Stated from the
spec's words, to be compared with the loop in `resolveTxtEntries`. -/
def firstValidRedirect : List ProcessedEntry → Option (URLParts × Nat)
  | [] => none
  | c :: rest =>
    match validateDomain c.value c.entry with
    | .ok u => some (u, c.ttl)
    | .error _ => firstValidRedirect rest

/-- Mock lookup used to exhibit C1's counterexample and witness: one
domain whose TXT set is a single redirect-namespace entry. -/
def fOneRedirect : LookupTXTFunc := fun d =>
  if d = ("_dnslink.example.com".toList) then .ok [⟨"dnslink=/dnslink/b.com".toList, 100⟩]
  else .rcodeErr 3 d

/-- Mock lookup with a two-domain redirect cycle (`a.com ↔ b.com`). -/
def fCycle : LookupTXTFunc := fun d =>
  if d = ("_dnslink.a.com".toList) then .ok [⟨"dnslink=/dnslink/b.com".toList, 100⟩]
  else if d = ("_dnslink.b.com".toList) then .ok [⟨"dnslink=/dnslink/a.com".toList, 100⟩]
  else .rcodeErr 3 d

/-- Mock lookup with one redirect hop of TTL 5 leading to a record of
TTL 100 (exercises the running-minimum clamp). -/
def fTtlHop : LookupTXTFunc := fun d =>
  if d = ("_dnslink.a.com".toList) then .ok [⟨"dnslink=/dnslink/b.com".toList, 5⟩]
  else if d = ("_dnslink.b.com".toList) then .ok [⟨"dnslink=/ipfs/QmX".toList, 100⟩]
  else .rcodeErr 3 d

/-- Mock lookup whose prefixed domain answers successfully but without any
`dnslink=` TXT string (exercises the implicit un-prefixing fallback). -/
def fNoOverride : LookupTXTFunc := fun d =>
  if d = ("_dnslink.c.com".toList) then .ok [⟨"some other txt".toList, 7⟩]
  else if d = ("c.com".toList) then .ok []
  else .rcodeErr 3 d

/-- The cycle-guard invariant maintained by the resolve loop: the chain
never exceeds the 31-hop bound, and every chained domain's redirect target
is itself chained or is the current lookup target. -/
def chainInv (f : LookupTXTFunc) (recursive : Bool) (chain : List GoStr) (cur : GoStr) : Prop :=
  chain.length ≤ 31 ∧
  ∀ d ∈ chain, ∃ tg, stepRedirect f recursive d = some tg ∧ (tg ∈ chain ∨ tg = cur)

/-- The concrete outcome of recursively resolving `example.com` against
`fOneRedirect`. -/
def c1Out : Result × Option ResolveError :=
  (resolve fOneRedirect ("example.com".toList) true 32).getD
    ({ links := [], path := [], log := [] }, none)

/-- The concrete outcome of recursively resolving `a.com` against
`fTtlHop`. -/
def c3Out : Result × Option ResolveError :=
  (resolve fTtlHop ("a.com".toList) true 32).getD
    ({ links := [], path := [], log := [] }, none)

/-! ## Theorems -/

/-- C7: at rcode 24 — the first value past the end of the 24-entry tables —
and at negative rcodes, `RCode.Name()`/`RCode.Detail()` evaluate an
out-of-range index (a runtime fault, modelled as `none`), because the
guard compares with `>` instead of `>=` and ignores negatives; strictly
above 24 they return `""` and `"Undefined Error."`, and inside the table
they return the per-code strings. -/
theorem c7_rcode_table_bounds :
    rcodeName 24 = none ∧ rcodeDetail 24 = none ∧
    rcodeName (-1) = none ∧ rcodeDetail (-1) = none ∧
    rcodeName 25 = some [] ∧ rcodeDetail 25 = some ("Undefined Error.".toList) ∧
    rcodeName 3 = some ("NXDomain".toList) ∧
    rcodeDetail 3 = some ("Non-Existent Domain.".toList) ∧
    rcodeName 0 = some ("Success".toList) ∧
    rcodeDetail 0 = some ("Undefined Error.".toList) := by
  decide

/-- C6 counterexample: the decoder leaves a generic backslash escape
`\x` untouched — there is no second replacement pass in `utf8Value`. -/
theorem c6_counterexample_generic_escape :
    utf8Value [['\\', 'x']] = ['\\', 'x'] ∧ ¬ utf8Value [['\\', 'x']] = ['x'] := by
  decide

/-- C6 (amended): `utf8Value` concatenates the fragments and replaces each
3-digit backslash-escaped decimal byte value `\DDD` with the literal byte;
every other character — including a generic backslash escape `\X` — is
passed through unchanged. -/
theorem c6_escape_decoder :
    (∀ frags : List GoStr, utf8Value frags = utf8Scan frags.flatten) ∧
    (∀ a b d : Char, ∀ rest : GoStr, isDigitChar a = true → isDigitChar b = true →
      isDigitChar d = true →
      utf8Scan ('\\' :: a :: b :: d :: rest) = utf8Byte a b d :: utf8Scan rest) ∧
    (∀ c : Char, ∀ rest : GoStr, ¬ c = '\\' → utf8Scan (c :: rest) = c :: utf8Scan rest) ∧
    (∀ rest : GoStr,
      (∀ a b d : Char, ∀ rest' : GoStr, rest = a :: b :: d :: rest' →
        ¬ (isDigitChar a = true ∧ isDigitChar b = true ∧ isDigitChar d = true)) →
      utf8Scan ('\\' :: rest) = '\\' :: utf8Scan rest) := by
  refine ⟨fun _ => rfl, ?_, ?_, ?_⟩
  · intro a b d rest ha hb hd
    simp [utf8Scan, ha, hb, hd]
  · intro c rest hc
    match rest with
    | [] => simp [utf8Scan]
    | [a] => simp [utf8Scan]
    | [a, b] => simp [utf8Scan]
    | a :: b :: d :: rest' => simp [utf8Scan, hc]
  · intro rest h
    match rest with
    | [] => simp [utf8Scan]
    | [a] => simp [utf8Scan]
    | [a, b] => simp [utf8Scan]
    | a :: b :: d :: rest' =>
      have hd := h a b d rest' rfl
      simp [utf8Scan, hd]

/-- C6 witness: `\065` decodes to the byte 65, `A`. -/
theorem c6_escape_decoder_witness :
    utf8Scan ['\\', '0', '6', '5'] = 'A' :: utf8Scan [] :=
  (c6_escape_decoder.2.1 '0' '6' '5' [] (by decide) (by decide) (by decide)).trans (by decide)

/-- C9: the segment-reduction loop of `reducePath` walks left-to-right: a
`.` segment is dropped, a `..` segment discards the last accumulated
segment by plain truncation, any other segment is appended — and a `..`
arriving when nothing has been accumulated has no in-range result (the
slice truncation panics, modelled as `none`). -/
theorem c9_segment_reduction :
    (∀ (acc : List GoStr) (rest : List GoStr),
      reducePathAux acc (['.'] :: rest) = reducePathAux acc rest) ∧
    (∀ (acc : List GoStr) (x : GoStr) (rest : List GoStr),
      reducePathAux (acc ++ [x]) (['.', '.'] :: rest) = reducePathAux acc rest) ∧
    (∀ rest : List GoStr, reducePathAux [] (['.', '.'] :: rest) = none) ∧
    (∀ (acc : List GoStr) (p : GoStr) (rest : List GoStr), ¬ p = ['.'] → ¬ p = ['.', '.'] →
      reducePathAux acc (p :: rest) = reducePathAux (acc ++ [p]) rest) ∧
    reducePath [['.', '.']] = none := by
  refine ⟨?_, ?_, ?_, ?_, by decide⟩
  · intro acc rest
    simp [reducePathAux]
  · intro acc x rest
    cases acc with
    | nil => simp [reducePathAux]
    | cons a as =>
      have hd : ((a :: as) ++ [x]).dropLast = a :: as := List.dropLast_concat
      simp only [List.cons_append] at hd
      simp [reducePathAux, hd]
  · intro rest
    simp [reducePathAux]
  · intro acc p rest h1 h2
    simp [reducePathAux, h1, h2]

/-- C9 witness: an ordinary segment is appended to the accumulator. -/
theorem c9_segment_reduction_witness :
    reducePathAux [] [['a']] = reducePathAux ([] ++ [['a']]) [] :=
  c9_segment_reduction.2.2.2.1 [] ['a'] [] (by decide) (by decide)

/-- C5 counterexample: the TXT string `dnslink= /foo/bar` does not begin
with `dnslink=` immediately followed by `/`, yet entry validation accepts
it (whitespace is trimmed before the slash test), contradicting the
claimed "exactly when". -/
theorem c5_counterexample_trimmed_space :
    goHasPfx ("dnslink= /foo/bar".toList) (txtPfx ++ ['/']) = false ∧
    validateDNSLinkEntry ("dnslink= /foo/bar".toList) = ("foo".toList, "bar".toList, []) := by
  decide

/-- When the trimmed remainder does start with a slash, whatever else
`validateDNSLinkEntry` decides, its reason is never `WRONG_START`. -/
theorem validateDNSLinkEntry_not_wrong_start (e : GoStr)
    (h : goHasPfx (goTrimSpace (e.drop txtPfx.length)) ['/'] = true) :
    ¬ (validateDNSLinkEntry e).2.2 = "WRONG_START".toList := by
  unfold validateDNSLinkEntry
  simp only [h, not_true, if_false]
  intro hw
  revert hw
  split
  · exact fun hw => (by decide :
      ¬ (("INVALID_CHARACTER".toList : GoStr) = "WRONG_START".toList)) hw
  · split
    · exact fun hw => (by decide :
        ¬ (("INVALID_ENCODING".toList : GoStr) = "WRONG_START".toList)) hw
    · split
      · exact fun hw => (by decide :
          ¬ (("KEY_MISSING".toList : GoStr) = "WRONG_START".toList)) hw
      · split
        · exact fun hw => (by decide :
            ¬ (("KEY_MISSING".toList : GoStr) = "WRONG_START".toList)) hw
        · split
          · exact fun hw => (by decide :
              ¬ (("NO_VALUE".toList : GoStr) = "WRONG_START".toList)) hw
          · split
            · exact fun hw => (by decide :
                ¬ (("NO_VALUE".toList : GoStr) = "WRONG_START".toList)) hw
            · exact fun hw => (by decide :
                ¬ (([] : GoStr) = "WRONG_START".toList)) hw

/-- C5 (amended): entry validation fails with `WRONG_START` exactly when
the remainder after the `dnslink=` prefix, once surrounding whitespace is
trimmed, does not begin with `/`; in particular the entry `"dnslink="`
always yields `INVALID_ENTRY` with reason `WRONG_START` and contributes
nothing to the grouped links. -/
theorem c5_wrong_start :
    (∀ e : GoStr, (validateDNSLinkEntry e).2.2 = "WRONG_START".toList ↔
      goHasPfx (goTrimSpace (e.drop txtPfx.length)) ['/'] = false) ∧
    (∀ t : Nat, processEntries [⟨txtPfx, t⟩] =
      ([], [{ code := cINVALID_ENTRY, entry := txtPfx, reason := "WRONG_START".toList }])) := by
  constructor
  · intro e
    by_cases h : goHasPfx (goTrimSpace (e.drop txtPfx.length)) ['/'] = true
    · constructor
      · intro hw
        exact absurd hw (validateDNSLinkEntry_not_wrong_start e h)
      · intro hf
        rw [h] at hf
        exact absurd hf (by decide)
    · have hb : goHasPfx (goTrimSpace (e.drop txtPfx.length)) ['/'] = false := by
        revert h
        cases goHasPfx (goTrimSpace (e.drop txtPfx.length)) ['/'] <;> simp
      simp [validateDNSLinkEntry, hb]
  · intro t
    rfl

/-- The pathname component of the `Reduce` fold never depends on the
query-set component of the state. -/
theorem foldl_reduceStep_fst_congr (l : List PathEntry) :
    ∀ (pp : List GoStr) (se se' : Search),
      (l.foldl reduceStep (pp, se)).1 = (l.foldl reduceStep (pp, se')).1 := by
  induction l with
  | nil => intro pp se se'; rfl
  | cons p rest ih =>
    intro pp se se'
    simp only [List.foldl_cons]
    have h1 : reduceStep (pp, se) p = ((reduceStep (pp, se) p).1, (reduceStep (pp, se) p).2) := rfl
    have h2 : (reduceStep (pp, se) p).1 = (reduceStep (pp, se') p).1 := rfl
    rw [h1, h2]
    exact ih _ _ _

/-- C8: a path entry whose pathname starts with `//` is absolute — in the
`Reduce` fold it discards every previously accumulated segment (whatever
entries came before and whatever the initial base path was) and restarts
from its own segments; concretely,
`reduce([{pathname:"//baz"}], "foo")` yields pathname `"baz"`. -/
theorem c8_absolute_override :
    (∀ (pre post : List PathEntry) (e : PathEntry) (pp : List GoStr) (se : Search),
      goHasPfx e.pathname ['/', '/'] = true →
      (List.foldl reduceStep (pp, se) (pre ++ e :: post)).1 =
        (List.foldl reduceStep (splitChar '/' (e.pathname.drop 2), se) post).1) ∧
    PathEntries.Reduce [{ pathname := "//baz".toList, search := [] }] ("foo".toList) =
      some { pathname := "baz".toList, search := [] } := by
  constructor
  · intro pre post e pp se h
    rw [List.foldl_append]
    obtain ⟨t, ht⟩ := List.isPrefixOf_iff_prefix.mp h
    have hp : e.pathname = '/' :: '/' :: t := by
      rw [← ht]; rfl
    have hstep : ∀ st : List GoStr × Search,
        reduceStep st e = (splitChar '/' t, combineSearch e.search st.2) := by
      intro st
      simp [reduceStep, hp, goTrimPfx, goHasPfx, List.isPrefixOf]
    have ht2 : e.pathname.drop 2 = t := by rw [hp]; rfl
    simp only [List.foldl_cons]
    rw [hstep, ht2]
    exact foldl_reduceStep_fst_congr post _ _ se
  · decide

/-- C8 witness: the override lemma applied to a concrete absolute entry. -/
theorem c8_absolute_override_witness :
    (List.foldl reduceStep (["foo".toList], [])
        ([] ++ { pathname := "//baz".toList, search := [] } :: [])).1 =
      (List.foldl reduceStep (splitChar '/' (("//baz".toList : GoStr).drop 2), []) []).1 :=
  c8_absolute_override.1 [] [] { pathname := "//baz".toList, search := [] }
    ["foo".toList] [] (by decide)

/-- Once a redirect has been chosen, the candidate loop never replaces it. -/
theorem redirectFold_absorb (cs : List ProcessedEntry) :
    ∀ (lg : List LogStatement) (r : URLParts × Nat),
      (List.foldl redirectFold (lg, some r) cs).2 = some r := by
  induction cs with
  | nil => intro lg r; rfl
  | cons c rest ih =>
    intro lg r
    simp only [List.foldl_cons]
    rcases h : validateDomain c.value c.entry with e | u
    · rw [show redirectFold (lg, some r) c = (lg ++ [e], some r) from by
        simp [redirectFold, h]]
      exact ih _ _
    · rw [show redirectFold (lg, some r) c =
          (lg ++ [{ code := cUNUSED, entry := c.entry }], some r) from by
        simp [redirectFold, h]]
      exact ih _ _

/-- One candidate step only appends to the log. -/
theorem redirectFold_step_mono (st : List LogStatement × Option (URLParts × Nat))
    (c : ProcessedEntry) (s : LogStatement) (h : s ∈ st.1) : s ∈ (redirectFold st c).1 := by
  unfold redirectFold
  split
  · exact List.mem_append_left _ h
  · split
    · exact h
    · exact List.mem_append_left _ h

/-- The candidate loop only appends to the log. -/
theorem redirectFold_log_mono (cs : List ProcessedEntry) :
    ∀ (st : List LogStatement × Option (URLParts × Nat)) (s : LogStatement),
      s ∈ st.1 → s ∈ (List.foldl redirectFold st cs).1 := by
  induction cs with
  | nil => intro st s h; exact h
  | cons c rest ih =>
    intro st s h
    simp only [List.foldl_cons]
    exact ih _ _ (redirectFold_step_mono st c s h)

/-- Started with no redirect chosen, the candidate loop picks exactly the
first syntactically valid candidate, in list order. -/
theorem redirectFold_pick (cs : List ProcessedEntry) :
    ∀ lg : List LogStatement,
      (List.foldl redirectFold (lg, none) cs).2 = firstValidRedirect cs := by
  induction cs with
  | nil => intro lg; rfl
  | cons c rest ih =>
    intro lg
    simp only [List.foldl_cons]
    rcases h : validateDomain c.value c.entry with e | u
    · rw [show redirectFold (lg, none) c = (lg ++ [e], none) from by simp [redirectFold, h]]
      rw [ih]
      simp [firstValidRedirect, h]
    · rw [show redirectFold (lg, none) c = (lg, some (u, c.ttl)) from by simp [redirectFold, h]]
      rw [redirectFold_absorb]
      simp [firstValidRedirect, h]

/-- Every candidate that fails domain validation has its error statement
appended to the log, whatever the loop state. -/
theorem redirectFold_error_logged (cs : List ProcessedEntry) :
    ∀ (st : List LogStatement × Option (URLParts × Nat)) (c : ProcessedEntry) (e : LogStatement),
      c ∈ cs → validateDomain c.value c.entry = .error e →
      e ∈ (List.foldl redirectFold st cs).1 := by
  induction cs with
  | nil => intro st c e h _; exact absurd h (List.not_mem_nil c)
  | cons c0 rest ih =>
    intro st c e hm hv
    simp only [List.foldl_cons]
    rcases List.mem_cons.mp hm with rfl | hm'
    · apply redirectFold_log_mono
      simp [redirectFold, hv]
    · exact ih _ _ _ hm' hv

/-- Once a redirect is chosen, every further valid candidate is logged as
`UNUSED_ENTRY`. -/
theorem redirectFold_valid_unused (cs : List ProcessedEntry) :
    ∀ (lg : List LogStatement) (r : URLParts × Nat) (c : ProcessedEntry) (u : URLParts),
      c ∈ cs → validateDomain c.value c.entry = .ok u →
      { code := cUNUSED, entry := c.entry } ∈ (List.foldl redirectFold (lg, some r) cs).1 := by
  induction cs with
  | nil => intro lg r c u h _; exact absurd h (List.not_mem_nil c)
  | cons c0 rest ih =>
    intro lg r c u hm hv
    simp only [List.foldl_cons]
    rcases List.mem_cons.mp hm with rfl | hm'
    · apply redirectFold_log_mono
      simp [redirectFold, hv]
    · rcases h0 : validateDomain c0.value c0.entry with e0 | u0
      · rw [show redirectFold (lg, some r) c0 = (lg ++ [e0], some r) from by
          simp [redirectFold, h0]]
        exact ih _ _ _ _ hm' hv
      · rw [show redirectFold (lg, some r) c0 =
            (lg ++ [{ code := cUNUSED, entry := c0.entry }], some r) from by
          simp [redirectFold, h0]]
        exact ih _ _ _ _ hm' hv

/-- Every valid candidate is either the one the loop chose (with its TTL)
or is logged `UNUSED_ENTRY`. -/
theorem redirectFold_valid_cases (cs : List ProcessedEntry) :
    ∀ (lg : List LogStatement) (c : ProcessedEntry) (u : URLParts),
      c ∈ cs → validateDomain c.value c.entry = .ok u →
      (List.foldl redirectFold (lg, none) cs).2 = some (u, c.ttl) ∨
      { code := cUNUSED, entry := c.entry } ∈ (List.foldl redirectFold (lg, none) cs).1 := by
  induction cs with
  | nil => intro lg c u h _; exact absurd h (List.not_mem_nil c)
  | cons c0 rest ih =>
    intro lg c u hm hv
    simp only [List.foldl_cons]
    rcases List.mem_cons.mp hm with rfl | hm'
    · rw [show redirectFold (lg, none) c = (lg, some (u, c.ttl)) from by simp [redirectFold, hv]]
      exact Or.inl (redirectFold_absorb _ _ _)
    · rcases h0 : validateDomain c0.value c0.entry with e0 | u0
      · rw [show redirectFold (lg, none) c0 = (lg ++ [e0], none) from by simp [redirectFold, h0]]
        exact ih _ _ _ hm' hv
      · rw [show redirectFold (lg, none) c0 = (lg, some (u0, c0.ttl)) from by
          simp [redirectFold, h0]]
        exact Or.inr (redirectFold_valid_unused rest _ _ _ _ hm' hv)

/-- The shadowing fold only appends to the log. -/
theorem shadowFold_mono (m : FoundMap) :
    ∀ (lg : List LogStatement) (s : LogStatement), s ∈ lg →
      s ∈ (List.foldl
        (fun lg2 kv => lg2 ++ kv.2.map (fun fe => { code := cUNUSED, entry := fe.entry })) lg m) := by
  induction m with
  | nil => intro lg s h; exact h
  | cons kv rest ih =>
    intro lg s h
    simp only [List.foldl_cons]
    exact ih _ _ (List.mem_append_left _ h)

/-- The shadowing fold logs `UNUSED_ENTRY` for every entry of every
namespace it walks. -/
theorem shadowFold_mem (m : FoundMap) :
    ∀ (lg : List LogStatement) (kv : GoStr × List ProcessedEntry) (fe : ProcessedEntry),
      kv ∈ m → fe ∈ kv.2 →
      { code := cUNUSED, entry := fe.entry } ∈ (List.foldl
        (fun lg2 kv2 => lg2 ++ kv2.2.map (fun fe2 => { code := cUNUSED, entry := fe2.entry })) lg m) := by
  induction m with
  | nil => intro lg kv fe h _; exact absurd h (List.not_mem_nil kv)
  | cons kv0 rest ih =>
    intro lg kv fe hm hf
    simp only [List.foldl_cons]
    rcases List.mem_cons.mp hm with rfl | hm'
    · apply shadowFold_mono
      apply List.mem_append_right
      exact List.mem_map_of_mem _ hf
    · exact ih _ _ _ hm' hf

/-- A domain-validation failure is logged either as `RECURSIVE_DNSLINK_PREFIX`
(doubly prefixed target) or as `INVALID_REDIRECT`. -/
theorem validateDomain_error_code (i e : GoStr) (s : LogStatement)
    (h : validateDomain i e = .error s) :
    s.code = cINVALID_REDIRECT ∨ s.code = cRECURSIVE := by
  unfold validateDomain at h
  dsimp only at h
  repeat' split at h
  all_goals first
    | (injection h with h'; rw [← h'])
    | exact absurd h (by simp)
  all_goals simp

/-- Reduction of `resolveTxtEntries` when recursion is on, a `dnslink=`
entry exists, and the redirect namespace is populated. -/
theorem resolveTxtEntries_rec (dom : GoStr) (E : List LookupEntry) (cands : List ProcessedEntry)
    (hE : hasDNSLinkEntry E = true)
    (hc : alistLookup (processEntries E).1 dlKey = some cands) :
    resolveTxtEntries dom true E =
      match (List.foldl redirectFold ((processEntries E).2, none) cands).2 with
      | some r =>
        { links := [],
          log := List.foldl
              (fun lg kv => lg ++ kv.2.map (fun fe => { code := cUNUSED, entry := fe.entry }))
              (List.foldl redirectFold ((processEntries E).2, none) cands).1
              (alistErase (processEntries E).1 dlKey),
          redirect := some r.1, redirectTtl := r.2 }
      | none =>
        { links := buildLinks (alistErase (processEntries E).1 dlKey),
          log := (List.foldl redirectFold ((processEntries E).2, none) cands).1,
          redirect := none, redirectTtl := MAX_UINT_32 } := by
  rw [resolveTxtEntries]
  rw [if_neg (by simp [hE])]
  simp only [hc, Option.isSome_some, Option.getD_some, true_and, if_pos]

/-- C4 counterexample: a redirect candidate whose target carries the
reserved prefix twice fails domain validation, yet is logged
`RECURSIVE_DNSLINK_PREFIX` — no `INVALID_REDIRECT` statement appears —
contradicting the claim that every candidate failing domain validation is
logged `INVALID_REDIRECT`. -/
theorem c4_counterexample_double_pfx_target :
    validateDomain ("_dnslink._dnslink.aa.com".toList)
        ("dnslink=/dnslink/_dnslink._dnslink.aa.com".toList) =
      .error { code := cRECURSIVE, domain := "_dnslink._dnslink.aa.com".toList } ∧
    ((resolveTxtEntries ("_dnslink.aa.com".toList) true
        [⟨"dnslink=/dnslink/_dnslink._dnslink.aa.com".toList, 1⟩]).log.any
      (fun s => s.code = cINVALID_REDIRECT)) = false ∧
    ((resolveTxtEntries ("_dnslink.aa.com".toList) true
        [⟨"dnslink=/dnslink/_dnslink._dnslink.aa.com".toList, 1⟩]).log.any
      (fun s => s.code = cRECURSIVE)) = true ∧
    (resolveTxtEntries ("_dnslink.aa.com".toList) true
        [⟨"dnslink=/dnslink/_dnslink._dnslink.aa.com".toList, 1⟩]).redirect = none := by
  decide

/-- C4 (amended): with recursion enabled and redirect-namespace entries
present, the first syntactically valid candidate in TXT-record iteration
order becomes the redirect target (with its TTL); every candidate failing
domain validation is logged with its validation failure — `INVALID_REDIRECT`,
or `RECURSIVE_DNSLINK_PREFIX` for a doubly-prefixed target — and is never
chosen; every valid candidate is the chosen one or is logged
`UNUSED_ENTRY`; and when a redirect is chosen, the links are empty and
every other namespace's entry is logged `UNUSED_ENTRY`. -/
theorem c4_redirect_selection (dom : GoStr) (E : List LookupEntry) (cands : List ProcessedEntry)
    (hE : hasDNSLinkEntry E = true)
    (hc : alistLookup (processEntries E).1 dlKey = some cands) :
    ((resolveTxtEntries dom true E).redirect = (firstValidRedirect cands).map (fun r => r.1)) ∧
    (∀ r, firstValidRedirect cands = some r → (resolveTxtEntries dom true E).redirectTtl = r.2) ∧
    (∀ c ∈ cands, ∀ e, validateDomain c.value c.entry = .error e →
      e ∈ (resolveTxtEntries dom true E).log ∧
      (e.code = cINVALID_REDIRECT ∨ e.code = cRECURSIVE)) ∧
    (∀ c ∈ cands, ∀ u, validateDomain c.value c.entry = .ok u →
      (resolveTxtEntries dom true E).redirect = some u ∨
      { code := cUNUSED, entry := c.entry } ∈ (resolveTxtEntries dom true E).log) ∧
    (∀ u, (resolveTxtEntries dom true E).redirect = some u →
      (resolveTxtEntries dom true E).links = [] ∧
      ∀ kv ∈ alistErase (processEntries E).1 dlKey, ∀ fe ∈ kv.2,
        { code := cUNUSED, entry := fe.entry } ∈ (resolveTxtEntries dom true E).log) := by
  have hred := resolveTxtEntries_rec dom E cands hE hc
  have hpick := redirectFold_pick cands (processEntries E).2
  rcases hst : (List.foldl redirectFold ((processEntries E).2, none) cands).2 with _ | r
  · rw [hst] at hred hpick
    dsimp only at hred
    rw [hred]
    refine ⟨by rw [← hpick]; rfl, ?_, ?_, ?_, ?_⟩
    · intro r hr
      rw [← hpick] at hr
      exact Option.noConfusion hr
    · intro c hm e hv
      exact ⟨redirectFold_error_logged cands _ c e hm hv,
        validateDomain_error_code c.value c.entry e hv⟩
    · intro c hm u hv
      rcases redirectFold_valid_cases cands (processEntries E).2 c u hm hv with hl | hr
      · rw [hst] at hl
        exact absurd hl (by simp)
      · exact Or.inr hr
    · intro u hu
      exact Option.noConfusion hu
  · rw [hst] at hred hpick
    dsimp only at hred
    rw [hred]
    refine ⟨by rw [← hpick]; rfl, ?_, ?_, ?_, ?_⟩
    · intro r' hr
      rw [← hpick] at hr
      injection hr with hr'
      rw [← hr']
    · intro c hm e hv
      refine ⟨?_, validateDomain_error_code c.value c.entry e hv⟩
      exact shadowFold_mono _ _ _ (redirectFold_error_logged cands _ c e hm hv)
    · intro c hm u hv
      rcases redirectFold_valid_cases cands (processEntries E).2 c u hm hv with hl | hr
      · rw [hst] at hl
        injection hl with hl'
        rw [hl']
        exact Or.inl rfl
      · exact Or.inr (shadowFold_mono _ _ _ hr)
    · intro u _
      exact ⟨rfl, fun kv hkv fe hfe => shadowFold_mem _ _ kv fe hkv hfe⟩

/-- C4 witness: a concrete TXT set with an invalid first candidate, a
valid second and third candidate, and an `ipfs` entry shadowed by the
chosen redirect. -/
theorem c4_redirect_selection_witness :
    (resolveTxtEntries ("_dnslink.aa.com".toList) true
        [⟨"dnslink=/dnslink/bad..com".toList, 3⟩,
         ⟨"dnslink=/dnslink/good.com".toList, 4⟩,
         ⟨"dnslink=/ipfs/QmZ".toList, 5⟩]).redirect =
      (firstValidRedirect
        [⟨"bad..com".toList, "dnslink=/dnslink/bad..com".toList, 3⟩,
         ⟨"good.com".toList, "dnslink=/dnslink/good.com".toList, 4⟩]).map (fun r => r.1) :=
  (c4_redirect_selection ("_dnslink.aa.com".toList)
    [⟨"dnslink=/dnslink/bad..com".toList, 3⟩,
     ⟨"dnslink=/dnslink/good.com".toList, 4⟩,
     ⟨"dnslink=/ipfs/QmZ".toList, 5⟩]
    [⟨"bad..com".toList, "dnslink=/dnslink/bad..com".toList, 3⟩,
     ⟨"good.com".toList, "dnslink=/dnslink/good.com".toList, 4⟩]
    (by decide) (by decide)).1

/-- Looking a key up in the assembled links reads through `buildLinks`. -/
theorem alistLookup_buildLinks (m : FoundMap) (k : GoStr) :
    alistLookup (buildLinks m) k =
      (alistLookup m k).map
        (fun es => sortByValue (es.map (fun fe => { value := fe.value, ttl := fe.ttl }))) := by
  induction m with
  | nil => rfl
  | cons kv rest ih =>
    simp only [buildLinks, List.map_cons, alistLookup]
    by_cases h : kv.1 = k
    · simp [h]
    · simp only [h, if_false]
      exact ih

/-- Looking a key up in the clamped links reads through `clampLinks`. -/
theorem alistLookup_clampLinks (l : List (GoStr × List LookupEntry)) (ttl : Nat) (k : GoStr) :
    alistLookup (clampLinks l ttl) k =
      (alistLookup l k).map (fun es => es.map (fun e => { e with ttl := minUint32 e.ttl ttl })) := by
  induction l with
  | nil => rfl
  | cons kv rest ih =>
    simp only [clampLinks, List.map_cons, alistLookup]
    by_cases h : kv.1 = k
    · simp [h]
    · simp only [h, if_false]
      exact ih

/-- Erasing a key removes it from association-list lookups. -/
theorem alistLookup_erase_self {α : Type} (m : List (GoStr × α)) (k : GoStr) :
    alistLookup (alistErase m k) k = none := by
  induction m with
  | nil => rfl
  | cons kv rest ih =>
    simp only [alistErase, List.filter_cons]
    by_cases h : kv.1 = k
    · rw [if_neg (by simp [h])]
      exact ih
    · rw [if_pos (by simp [h])]
      simp only [alistLookup]
      rw [if_neg h]
      exact ih

/-- A TXT set with no `dnslink=`-prefixed string groups to nothing. -/
theorem processEntries_no_dnslink (E : List LookupEntry) (h : hasDNSLinkEntry E = false) :
    processEntries E = ([], []) := by
  have hall : ∀ e ∈ E, goHasPfx e.value txtPfx = false := by
    intro e he
    by_contra hcon
    have ht : hasDNSLinkEntry E = true := by
      unfold hasDNSLinkEntry
      rw [List.any_eq_true]
      exact ⟨e, he, by revert hcon; cases goHasPfx e.value txtPfx <;> simp⟩
    rw [ht] at h
    exact Bool.noConfusion h
  unfold processEntries
  have aux : ∀ (l : List LookupEntry) (st : FoundMap × List LogStatement),
      (∀ e ∈ l, goHasPfx e.value txtPfx = false) → List.foldl processStep st l = st := by
    intro l
    induction l with
    | nil => intro st _; rfl
    | cons e rest ih =>
      intro st hl
      simp only [List.foldl_cons]
      rw [show processStep st e = st from by
        simp [processStep, hl e (List.mem_cons_self e rest)]]
      exact ih st (fun x hx => hl x (List.mem_cons_of_mem e hx))
  exact aux E ([], []) hall

/-- In recursive mode, the links produced by one hop's TXT processing
never contain the reserved redirect namespace. -/
theorem resolveTxt_links_no_dlKey (dom : GoStr) (E : List LookupEntry) :
    alistLookup (resolveTxtEntries dom true E).links dlKey = none := by
  cases hE : hasDNSLinkEntry E with
  | false =>
    cases hp : goHasPfx dom dnsPfx with
    | true =>
      rw [resolveTxtEntries, if_pos (by simp [hE, hp])]
      rfl
    | false =>
      rw [resolveTxtEntries, if_neg (by simp [hE, hp])]
      simp only [processEntries_no_dnslink E hE]
      rfl
  | true =>
    cases hc : alistLookup (processEntries E).1 dlKey with
    | none =>
      rw [resolveTxtEntries, if_neg (by simp [hE])]
      simp only [hc]
      rw [if_neg (by simp)]
      rw [alistLookup_buildLinks, hc]
      rfl
    | some cands =>
      have hred := resolveTxtEntries_rec dom E cands hE hc
      rw [hred]
      cases hst : (List.foldl redirectFold ((processEntries E).2, none) cands).2 with
      | none =>
        dsimp only
        rw [alistLookup_buildLinks, alistLookup_erase_self]
        rfl
      | some r =>
        rfl

/-- When an iteration of the recursive loop returns, its links never
contain the reserved redirect namespace. -/
theorem resolveIter_done_no_dlKey (f : LookupTXTFunc) (chain : List GoStr) (ttl : Nat)
    (lookup : URLParts) (log : List LogStatement) (out : Result × Option ResolveError)
    (h : resolveIter f true chain ttl lookup log = .done out) :
    alistLookup out.1.links dlKey = none := by
  unfold resolveIter at h
  dsimp only at h
  split at h
  · injection h with h'
    rw [← h']
    rfl
  · split at h
    · injection h with h'
      rw [← h']
      dsimp only
      rw [alistLookup_clampLinks, resolveTxt_links_no_dlKey]
      rfl
    · split at h
      · injection h with h'
        rw [← h']
        rfl
      · split at h
        · injection h with h'
          rw [← h']
          rfl
        · exact IterOut.noConfusion h

/-- Whatever the recursive loop returns has no reserved-namespace links. -/
theorem resolveLoop_no_dlKey (f : LookupTXTFunc) :
    ∀ (fuel : Nat) (chain : List GoStr) (ttl : Nat) (lookup : URLParts)
      (log : List LogStatement) (out : Result × Option ResolveError),
      resolveLoop f true fuel chain ttl lookup log = some out →
      alistLookup out.1.links dlKey = none := by
  intro fuel
  induction fuel with
  | zero =>
    intro _ _ _ _ _ h
    exact Option.noConfusion h
  | succ n ih =>
    intro chain ttl lookup log out h
    rw [resolveLoop] at h
    cases hi : resolveIter f true chain ttl lookup log with
    | done o =>
      rw [hi] at h
      injection h with h'
      rw [← h']
      exact resolveIter_done_no_dlKey f chain ttl lookup log o hi
    | next c' r' l' lg' =>
      rw [hi] at h
      exact ih _ _ _ _ _ h

/-- C1 (amended): for every recursive resolve call, the returned links
never contain an entry under the reserved redirect namespace `dnslink` —
it is fully consumed during recursive resolution.  (Non-recursive calls do
expose the `dnslink` namespace; see the counterexample.) -/
theorem c1_no_dnslink_namespace (f : LookupTXTFunc) (d : GoStr) (fuel : Nat)
    (out : Result × Option ResolveError) (h : resolve f d true fuel = some out) :
    alistLookup out.1.links dlKey = none := by
  unfold resolve at h
  split at h
  · injection h with h'
    rw [← h']
    rfl
  · exact resolveLoop_no_dlKey f fuel _ _ _ _ _ h

/-- C1 counterexample: a non-recursive resolve call whose TXT set holds a
redirect-namespace entry returns it under the `dnslink` key in `links`. -/
theorem c1_counterexample_nonrecursive :
    ((resolve fOneRedirect ("example.com".toList) false 32).map
      (fun p => alistLookup p.1.links dlKey)) =
      some (some [{ value := "b.com".toList, ttl := 100 }]) := by
  decide

/-- C1 witness: the amended theorem applied to the concrete recursive
resolution of `example.com`. -/
theorem c1_no_dnslink_namespace_witness :
    alistLookup c1Out.1.links dlKey = none :=
  c1_no_dnslink_namespace fOneRedirect ("example.com".toList) 32 c1Out (by rfl)

theorem minUint32_le_left (a b : Nat) : minUint32 a b ≤ a := by
  unfold minUint32
  split <;> omega

theorem minUint32_le_right (a b : Nat) : minUint32 a b ≤ b := by
  unfold minUint32
  split <;> omega

/-- Every link entry a returning iteration exposes has been clamped to the
running minimum TTL. -/
theorem resolveIter_done_ttl (f : LookupTXTFunc) (recursive : Bool) (chain : List GoStr)
    (ttl : Nat) (lookup : URLParts) (log : List LogStatement) (out : Result × Option ResolveError)
    (h : resolveIter f recursive chain ttl lookup log = .done out) :
    ∀ kv ∈ out.1.links, ∀ e ∈ kv.2, e.ttl ≤ ttl := by
  unfold resolveIter at h
  dsimp only at h
  split at h
  · injection h with h'
    rw [← h']
    intro kv hkv
    exact absurd hkv (List.not_mem_nil kv)
  · split at h
    · injection h with h'
      rw [← h']
      dsimp only
      intro kv hkv e he
      unfold clampLinks at hkv
      rcases List.mem_map.mp hkv with ⟨kv0, _, rfl⟩
      rcases List.mem_map.mp he with ⟨e0, _, rfl⟩
      exact minUint32_le_right _ _
    · split at h
      · injection h with h'
        rw [← h']
        intro kv hkv
        exact absurd hkv (List.not_mem_nil kv)
      · split at h
        · injection h with h'
          rw [← h']
          intro kv hkv
          exact absurd hkv (List.not_mem_nil kv)
        · exact IterOut.noConfusion h

/-- Loop invariant for TTL propagation: every entry of the returned links
is bounded by the running TTL and by every later hop's redirect TTL. -/
theorem resolveLoop_ttl (f : LookupTXTFunc) (recursive : Bool) :
    ∀ (fuel : Nat) (chain : List GoStr) (ttl : Nat) (lookup : URLParts)
      (log : List LogStatement) (out : Result × Option ResolveError),
      resolveLoop f recursive fuel chain ttl lookup log = some out →
      ∀ kv ∈ out.1.links, ∀ e ∈ kv.2,
        e.ttl ≤ ttl ∧ ∀ t ∈ loopHops f recursive fuel chain ttl lookup log, e.ttl ≤ t := by
  intro fuel
  induction fuel with
  | zero =>
    intro _ _ _ _ _ h
    exact Option.noConfusion h
  | succ n ih =>
    intro chain ttl lookup log out h kv hkv e he
    rw [resolveLoop] at h
    rw [loopHops]
    cases hi : resolveIter f recursive chain ttl lookup log with
    | done o =>
      rw [hi] at h
      injection h with h'
      rw [← h'] at hkv
      refine ⟨resolveIter_done_ttl f recursive chain ttl lookup log o hi kv hkv e he, ?_⟩
      intro t ht
      exact absurd ht (List.not_mem_nil t)
    | next c' rT l' lg' =>
      rw [hi] at h
      have hrec := ih c' (minUint32 ttl rT) l' lg' out h kv hkv e he
      refine ⟨le_trans hrec.1 (minUint32_le_left _ _), ?_⟩
      intro t ht
      rcases List.mem_cons.mp ht with rfl | ht'
      · exact le_trans hrec.1 (minUint32_le_right _ _)
      · exact hrec.2 t ht'

/-- C3: in every recursive resolution, the TTL of every entry in the
returned links is bounded by the redirect TTL of every hop the walk took —
TTL propagation is a running minimum, applied to each kept entry before
the links are returned. -/
theorem c3_ttl_monotone (f : LookupTXTFunc) (d : GoStr) (fuel : Nat)
    (out : Result × Option ResolveError) (h : resolve f d true fuel = some out) :
    ∀ kv ∈ out.1.links, ∀ e ∈ kv.2, ∀ t ∈ resolveHops f d true fuel, e.ttl ≤ t := by
  unfold resolve at h
  unfold resolveHops
  cases hv : validateDomain d [] with
  | error s =>
    rw [hv] at h
    injection h with h'
    rw [← h']
    intro kv hkv
    exact absurd hkv (List.not_mem_nil kv)
  | ok lookup =>
    rw [hv] at h
    intro kv hkv e he t ht
    exact (resolveLoop_ttl f true fuel [] MAX_UINT_32 lookup [] out h kv hkv e he).2 t ht

/-- C3 witness: across a hop of TTL 5 leading to a record of TTL 100, the
returned entry's TTL is bounded by the hop's TTL. -/
theorem c3_ttl_monotone_witness :
    ({ value := "QmX".toList, ttl := 5 } : LookupEntry).ttl ≤ 5 :=
  c3_ttl_monotone fTtlHop ("a.com".toList) 32 c3Out (by rfl)
    ("ipfs".toList, [{ value := "QmX".toList, ttl := 5 }]) (by decide)
    { value := "QmX".toList, ttl := 5 } (by decide) 5 (by decide)

/-- What a continuing iteration guarantees: the chain was extended with
the current domain, the redirect target came out of `stepRedirect`, it was
not yet chained, and the 31-hop bound had not been reached. -/
theorem resolveIter_next_shape (f : LookupTXTFunc) (recursive : Bool) (chain : List GoStr)
    (ttl : Nat) (lookup : URLParts) (log : List LogStatement)
    (c' : List GoStr) (rT : Nat) (l' : URLParts) (lg' : List LogStatement)
    (h : resolveIter f recursive chain ttl lookup log = .next c' rT l' lg') :
    c' = chainAdd chain lookup.domain ∧
    stepRedirect f recursive lookup.domain = some l'.domain ∧
    ¬ l'.domain ∈ chain ∧ ¬ chain.length = 31 := by
  unfold resolveIter at h
  dsimp only at h
  split at h
  · exact IterOut.noConfusion h
  · rename_i hfatal
    split at h
    · exact IterOut.noConfusion h
    · rename_i red hred
      split at h
      · exact IterOut.noConfusion h
      · rename_i hmem
        split at h
        · exact IterOut.noConfusion h
        · rename_i hlen
          injection h with h1 h2 h3 h4
          subst h3
          refine ⟨h1.symm, ?_, hmem, hlen⟩
          unfold stepRedirect
          rw [if_neg hfatal, hred]
          rfl

/-- With the chain invariant, fuel `32 - |chain|` always suffices: the
loop returns before running out. -/
theorem resolveLoop_terminates (f : LookupTXTFunc) (recursive : Bool) :
    ∀ (fuel : Nat) (chain : List GoStr) (ttl : Nat) (lookup : URLParts)
      (log : List LogStatement),
      chainInv f recursive chain lookup.domain →
      32 ≤ chain.length + fuel →
      (resolveLoop f recursive fuel chain ttl lookup log).isSome = true := by
  intro fuel
  induction fuel with
  | zero =>
    intro chain ttl lookup log hinv hlen
    have h31 := hinv.1
    omega
  | succ n ih =>
    intro chain ttl lookup log hinv hlen
    rw [resolveLoop]
    cases hi : resolveIter f recursive chain ttl lookup log with
    | done o => rfl
    | next c' rT l' lg' =>
      obtain ⟨hc', hstep, hmem, hlen31⟩ := resolveIter_next_shape f recursive chain ttl
        lookup log c' rT l' lg' hi
      have hnotin : ¬ lookup.domain ∈ chain := by
        intro hmem2
        obtain ⟨tg, htg, hor⟩ := hinv.2 lookup.domain hmem2
        rw [hstep] at htg
        injection htg with htg'
        rcases hor with h1 | h1
        · rw [← htg'] at h1
          exact hmem h1
        · rw [← htg'] at h1
          rw [h1] at hmem
          exact hmem hmem2
      have hadd : c' = chain ++ [lookup.domain] := by
        rw [hc']
        unfold chainAdd
        rw [if_neg hnotin]
      apply ih c' (minUint32 ttl rT) l' lg'
      · constructor
        · rw [hadd]
          have h31 := hinv.1
          simp only [List.length_append, List.length_cons, List.length_nil]
          omega
        · intro dd hdd
          rw [hadd] at hdd
          rcases List.mem_append.mp hdd with hdd' | hdd'
          · obtain ⟨tg, htg, hor⟩ := hinv.2 dd hdd'
            refine ⟨tg, htg, Or.inl ?_⟩
            rw [hadd]
            rcases hor with h1 | h1
            · exact List.mem_append_left _ h1
            · rw [h1]
              exact List.mem_append_right _ (List.mem_singleton.mpr rfl)
          · have hd2 : dd = lookup.domain := by simpa using hdd'
            refine ⟨l'.domain, ?_, Or.inr rfl⟩
            rw [hd2]
            exact hstep
      · rw [hadd]
        simp only [List.length_append, List.length_cons, List.length_nil]
        omega

/-- An iteration whose lookup succeeds and whose TXT processing yields a
not-yet-chained redirect, under the hop bound, continues the loop. -/
theorem resolveIter_redirect (f : LookupTXTFunc) (recursive : Bool) (chain : List GoStr)
    (ttl : Nat) (lookup : URLParts) (log : List LogStatement) (E : List LookupEntry)
    (red : URLParts)
    (hf : f lookup.domain = .ok E)
    (hr : (resolveTxtEntries lookup.domain recursive E).redirect = some red)
    (hmem : ¬ red.domain ∈ chain) (hlen : ¬ chain.length = 31) :
    resolveIter f recursive chain ttl lookup log = .next (chainAdd chain lookup.domain)
      (resolveTxtEntries lookup.domain recursive E).redirectTtl red
      (log ++ (resolveTxtEntries lookup.domain recursive E).log ++ [redirectStmt lookup]) := by
  unfold resolveIter
  rw [hf]
  dsimp only [fatalLookupError, entriesOf]
  rw [if_neg (by simp)]
  rw [hr]
  dsimp only
  rw [if_neg hmem, if_neg hlen]

/-- An iteration whose TXT processing yields an already-chained redirect
returns with a final `ENDLESS_REDIRECT` statement. -/
theorem resolveIter_endless (f : LookupTXTFunc) (recursive : Bool) (chain : List GoStr)
    (ttl : Nat) (lookup : URLParts) (log : List LogStatement) (E : List LookupEntry)
    (red : URLParts)
    (hf : f lookup.domain = .ok E)
    (hr : (resolveTxtEntries lookup.domain recursive E).redirect = some red)
    (hmem : red.domain ∈ chain) :
    resolveIter f recursive chain ttl lookup log = .done
      ({ links := [], path := [],
         log := log ++ (resolveTxtEntries lookup.domain recursive E).log ++
           [resolveStmt lookup, endlessStmt red] }, none) := by
  unfold resolveIter
  rw [hf]
  dsimp only [fatalLookupError, entriesOf]
  rw [if_neg (by simp)]
  rw [hr]
  dsimp only
  rw [if_pos hmem]

/-- One unfolding of the loop at positive fuel. -/
theorem resolveLoop_succ (f : LookupTXTFunc) (recursive : Bool) (fuel : Nat)
    (chain : List GoStr) (ttl : Nat) (lookup : URLParts) (log : List LogStatement) :
    resolveLoop f recursive (fuel + 1) chain ttl lookup log =
      match resolveIter f recursive chain ttl lookup log with
      | .done out => some out
      | .next c' rT l' lg' =>
        resolveLoop f recursive fuel c' (minUint32 ttl rT) l' lg' := rfl

/-- C2: the resolve loop always terminates within the hop bound — fuel 32
is enough for every lookup function, every start domain and both modes —
and for any two mutually redirecting domains A and B, recursive
resolution of A returns (not errors) with `ENDLESS_REDIRECT` as its final
log statement. -/
theorem c2_cycle_termination :
    (∀ (f : LookupTXTFunc) (recursive : Bool) (d : GoStr) (fuel : Nat), 32 ≤ fuel →
      (resolve f d recursive fuel).isSome = true) ∧
    (∀ (f : LookupTXTFunc) (A : GoStr) (uA uB rA rB : URLParts)
       (EA EB : List LookupEntry) (n : Nat),
      validateDomain A [] = .ok uA →
      f uA.domain = .ok EA →
      (resolveTxtEntries uA.domain true EA).redirect = some rA →
      rA.domain = uB.domain →
      f uB.domain = .ok EB →
      (resolveTxtEntries uB.domain true EB).redirect = some rB →
      rB.domain = uA.domain →
      ∃ (res : Result) (pre : List LogStatement),
        resolve f A true (n + 2) = some (res, none) ∧
        res.log = pre ++ [endlessStmt rB]) := by
  constructor
  · intro f recursive d fuel hfuel
    unfold resolve
    cases hv : validateDomain d [] with
    | error s => rfl
    | ok lookup =>
      apply resolveLoop_terminates f recursive fuel [] MAX_UINT_32 lookup []
      · exact ⟨by simp, by simp⟩
      · simpa using hfuel
  · intro f A uA uB rA rB EA EB n hA hfA hrA hAB hfB hrB hBA
    unfold resolve
    rw [hA]
    dsimp only
    rw [show n + 2 = (n + 1) + 1 from rfl]
    rw [resolveLoop_succ]
    rw [resolveIter_redirect f true [] MAX_UINT_32 uA [] EA rA hfA hrA
      (List.not_mem_nil rA.domain) (by simp)]
    have hchain : chainAdd [] uA.domain = [uA.domain] := by
      unfold chainAdd
      rw [if_neg (List.not_mem_nil uA.domain)]
      rfl
    dsimp only
    rw [hchain]
    rw [resolveLoop_succ]
    have hfB' : f rA.domain = .ok EB := by rw [hAB]; exact hfB
    have hrB' : (resolveTxtEntries rA.domain true EB).redirect = some rB := by
      rw [hAB]; exact hrB
    have hmemB : rB.domain ∈ [uA.domain] := by
      rw [hBA]
      exact List.mem_singleton.mpr rfl
    rw [resolveIter_endless f true [uA.domain] _ rA _ EB rB hfB' hrB' hmemB]
    dsimp only
    refine ⟨_, [] ++ (resolveTxtEntries uA.domain true EA).log ++ [redirectStmt uA] ++
      (resolveTxtEntries rA.domain true EB).log ++ [resolveStmt rA], rfl, ?_⟩
    simp

/-- C2 witness: the bound and the cycle shape at the concrete two-domain
cycle `a.com ↔ b.com`. -/
theorem c2_cycle_termination_witness :
    (resolve fCycle ("a.com".toList) true 32).isSome = true ∧
    (∃ (res : Result) (pre : List LogStatement),
      resolve fCycle ("a.com".toList) true (0 + 2) = some (res, none) ∧
      res.log = pre ++ [endlessStmt { domain := "_dnslink.a.com".toList }]) :=
  ⟨c2_cycle_termination.1 fCycle true ("a.com".toList) 32 (by decide),
   c2_cycle_termination.2 fCycle ("a.com".toList)
     { domain := "_dnslink.a.com".toList } { domain := "_dnslink.b.com".toList }
     { domain := "_dnslink.b.com".toList } { domain := "_dnslink.a.com".toList }
     [⟨"dnslink=/dnslink/b.com".toList, 100⟩] [⟨"dnslink=/dnslink/a.com".toList, 100⟩] 0
     (by rfl) (by rfl) (by rfl) (by rfl) (by rfl) (by rfl) (by rfl)⟩

/-- A string with no occurrence of a prefix keeps lacking it after `take`. -/
theorem goHasPfx_take_false (l p : GoStr) (n : Nat) (h : goHasPfx l p = false) :
    goHasPfx (l.take n) p = false := by
  by_contra hcon
  have htrue : goHasPfx (l.take n) p = true := by
    revert hcon
    cases goHasPfx (l.take n) p <;> simp
  have hpfx : p <+: l.take n := List.isPrefixOf_iff_prefix.mp htrue
  have hl : p <+: l := hpfx.trans (List.take_prefix n l)
  have h2 : p.isPrefixOf l = true := List.isPrefixOf_iff_prefix.mpr hl
  unfold goHasPfx at h
  rw [h2] at h
  exact Bool.noConfusion h

/-- Trimming a suffix cannot create a prefix that was absent. -/
theorem goTrimSfx_no_pfx (l s p : GoStr) (h : goHasPfx l p = false) :
    goHasPfx (goTrimSfx l s) p = false := by
  unfold goTrimSfx
  split
  · exact goHasPfx_take_false l p _ h
  · exact h

/-- Every validated lookup target starts with the reserved prefix, and
stripping that one prefix leaves a domain that does not start with it
again. -/
theorem validateDomain_ok_shape (i e : GoStr) (u : URLParts)
    (h : validateDomain i e = .ok u) :
    goHasPfx u.domain dnsPfx = true ∧
    goHasPfx (u.domain.drop dnsPfx.length) dnsPfx = false := by
  unfold validateDomain at h
  dsimp only at h
  by_cases hp0 : goHasPfx (relevantURLParts i).domain dnsPfx = true
  · rw [if_pos hp0] at h
    by_cases hp1 : goHasPfx ((relevantURLParts i).domain.drop dnsPfx.length) dnsPfx = true
    · rw [if_pos ⟨hp0, hp1⟩] at h
      exact Except.noConfusion h
    · rw [if_neg (fun hc => hp1 hc.2)] at h
      split at h
      · exact Except.noConfusion h
      · injection h with h'
        have hd1 : goHasPfx ((relevantURLParts i).domain.drop dnsPfx.length) dnsPfx = false := by
          revert hp1
          cases goHasPfx ((relevantURLParts i).domain.drop dnsPfx.length) dnsPfx <;> simp
        rw [← h']
        dsimp only
        constructor
        · exact List.isPrefixOf_iff_prefix.mpr (List.prefix_append dnsPfx _)
        · rw [List.drop_left]
          exact goTrimSfx_no_pfx _ _ _ hd1
  · rw [if_neg hp0] at h
    rw [if_neg (fun hc => hp0 hc.1)] at h
    split at h
    · exact Except.noConfusion h
    · injection h with h'
      have hd1 : goHasPfx (relevantURLParts i).domain dnsPfx = false := by
        revert hp0
        cases goHasPfx (relevantURLParts i).domain dnsPfx <;> simp
      rw [← h']
      dsimp only
      constructor
      · exact List.isPrefixOf_iff_prefix.mpr (List.prefix_append dnsPfx _)
      · rw [List.drop_left]
        exact goTrimSfx_no_pfx _ _ _ hd1

/-- The implicit-fallback branch of `resolveTxtEntries`: a prefixed domain
whose TXT set has no `dnslink=` string schedules a redirect to the bare
domain, in both modes. -/
theorem resolveTxt_fallback (dom : GoStr) (E : List LookupEntry) (recursive : Bool)
    (hp : goHasPfx dom dnsPfx = true) (hE : hasDNSLinkEntry E = false) :
    resolveTxtEntries dom recursive E =
      { links := [], log := [],
        redirect := some { domain := dom.drop dnsPfx.length }, redirectTtl := MAX_UINT_32 } := by
  rw [resolveTxtEntries, if_pos (by simp [hp, hE])]

/-- On an unprefixed domain whose TXT set has no `dnslink=` string, one
hop's TXT processing is inert: no links, no log, no redirect. -/
theorem resolveTxt_inert (dom : GoStr) (E : List LookupEntry) (recursive : Bool)
    (hp : goHasPfx dom dnsPfx = false) (hE : hasDNSLinkEntry E = false) :
    resolveTxtEntries dom recursive E =
      { links := [], log := [], redirect := none, redirectTtl := MAX_UINT_32 } := by
  rw [resolveTxtEntries, if_neg (by simp [hp, hE])]
  simp only [processEntries_no_dnslink E hE]
  rw [if_neg (by simp [alistLookup])]
  rfl

/-- An iteration whose lookup succeeds and whose TXT processing yields no
redirect is terminal. -/
theorem resolveIter_terminal (f : LookupTXTFunc) (recursive : Bool) (chain : List GoStr)
    (ttl : Nat) (lookup : URLParts) (log : List LogStatement) (E : List LookupEntry)
    (hf : f lookup.domain = .ok E)
    (hr : (resolveTxtEntries lookup.domain recursive E).redirect = none) :
    resolveIter f recursive chain ttl lookup log = .done
      ({ links := clampLinks (resolveTxtEntries lookup.domain recursive E).links ttl,
         path := getPathFromLog
           (log ++ (resolveTxtEntries lookup.domain recursive E).log ++ [resolveStmt lookup]),
         log := log ++ (resolveTxtEntries lookup.domain recursive E).log ++
           [resolveStmt lookup] }, none) := by
  unfold resolveIter
  rw [hf]
  dsimp only [fatalLookupError, entriesOf]
  rw [if_neg (by simp)]
  rw [hr]

/-- C10: whenever a lookup of a `_dnslink.`-prefixed domain succeeds but
returns no TXT string starting with `dnslink=` (an empty set included),
the resolver schedules an implicit redirect to the bare un-prefixed
domain — in recursive and non-recursive mode alike — and the resolve loop
then walks that one extra hop. -/
theorem c10_fallback :
    (∀ (dom : GoStr) (E : List LookupEntry) (recursive : Bool),
      goHasPfx dom dnsPfx = true → hasDNSLinkEntry E = false →
      resolveTxtEntries dom recursive E =
        { links := [], log := [],
          redirect := some { domain := dom.drop dnsPfx.length },
          redirectTtl := MAX_UINT_32 }) ∧
    (∀ (recursive : Bool) (f : LookupTXTFunc) (d : GoStr) (u : URLParts)
       (E E' : List LookupEntry) (n : Nat),
      validateDomain d [] = .ok u →
      f u.domain = .ok E → hasDNSLinkEntry E = false →
      f (u.domain.drop dnsPfx.length) = .ok E' → hasDNSLinkEntry E' = false →
      ∃ res : Result, resolve f d recursive (n + 2) = some (res, none) ∧
        res.log = [redirectStmt u, resolveStmt { domain := u.domain.drop dnsPfx.length }] ∧
        res.links = []) := by
  constructor
  · intro dom E recursive hp hE
    exact resolveTxt_fallback dom E recursive hp hE
  · intro recursive f d u E E' n hvd hfE hE hfE' hE'
    obtain ⟨hpfx, hbare⟩ := validateDomain_ok_shape d [] u hvd
    have hfall := resolveTxt_fallback u.domain E recursive hpfx hE
    unfold resolve
    rw [hvd]
    dsimp only
    rw [show n + 2 = (n + 1) + 1 from rfl]
    rw [resolveLoop_succ]
    rw [resolveIter_redirect f recursive [] MAX_UINT_32 u [] E
      { domain := u.domain.drop dnsPfx.length }
      hfE (by rw [hfall]) (List.not_mem_nil _) (by simp)]
    dsimp only
    have hchain : chainAdd [] u.domain = [u.domain] := by
      unfold chainAdd
      rw [if_neg (List.not_mem_nil u.domain)]
      rfl
    rw [hchain, hfall]
    rw [resolveLoop_succ]
    have hinert := resolveTxt_inert (u.domain.drop dnsPfx.length) E' recursive hbare hE'
    rw [resolveIter_terminal f recursive [u.domain] _
      { domain := u.domain.drop dnsPfx.length } _ E' hfE' (by rw [hinert])]
    dsimp only
    rw [hinert]
    refine ⟨_, rfl, ?_, rfl⟩
    rfl

/-- C10 witness: the fallback walked for `c.com`, whose prefixed lookup
answers only non-DNSLink TXT content. -/
theorem c10_fallback_witness :
    ∃ res : Result, resolve fNoOverride ("c.com".toList) true (0 + 2) = some (res, none) ∧
      res.log = [redirectStmt { domain := "_dnslink.c.com".toList },
        resolveStmt { domain := ("_dnslink.c.com".toList : GoStr).drop dnsPfx.length }] ∧
      res.links = [] :=
  c10_fallback.2 true fNoOverride ("c.com".toList) { domain := "_dnslink.c.com".toList }
    [⟨"some other txt".toList, 7⟩] [] 0 (by rfl) (by rfl) (by rfl) (by rfl) (by rfl)

end DNSLink
